import Mathlib

/-!
Verification of the eviction and serialization engine of `cache-sqlite-lru-ttl`
(`src/index.ts`), as a shallow embedding.

The cache table is modelled as a list of rows; each prepared SQL statement of
`initSqliteCache` becomes a pure function on that list.  The facade operations
(`get`, `set`, `delete`, `clear`, `close`) and the background sweep
(`checkForExpiredItems`) become pure state transformers on a `CacheState`;
a thrown `Error` is an `Except.error`.  The external collaborators — the CBOR
codec (`cbor.encode` / `cbor.decode`) and gzip (`zlib.gzip` / `zlib.gunzip`) —
are not code of this repository: operations take them as function parameters,
and round-trip theorems assume their contract from the spec (§4.2).
-/

/-- A byte sequence (`Buffer`).  Byte-ness of the entries is irrelevant to the
claims, so bytes are plain naturals. -/
abbrev Bytes := List Nat

/-- One row of the cache table created by `initSqliteCache`:
`key TEXT PRIMARY KEY, value BLOB, expires INT, lastAccess INT, compressed BOOLEAN`.
`expires` is nullable (`none` = never expires). -/
structure Row where
  key : String
  value : Bytes
  expires : Option Int
  lastAccess : Int
  compressed : Bool
deriving Repr, DecidableEq

/-- `const COMPRESSION_MIN_LENGTH = 1024` in `src/index.ts`. -/
def COMPRESSION_MIN_LENGTH : Nat := 1024

/-- The configuration fields consulted by the embedded operations
(`defaultTtlMs`, `maxItems`, `compress` of `SqliteCacheConfiguration`).
All are optional in the source; `zod` validation makes `defaultTtlMs` and
`maxItems` positive when present. -/
structure Config where
  defaultTtlMs : Option Int
  maxItems : Option Nat
  compress : Option Bool
deriving Repr, DecidableEq

/-- Mutable instance state of a `SqliteCache`: the table contents, the
`isClosed` flag, whether the `setInterval` timer is still registered, and
whether the underlying database handle is open. -/
structure CacheState where
  table : List Row
  isClosed : Bool
  intervalActive : Bool
  dbOpen : Bool
deriving Repr, DecidableEq

/-- The `opts` argument of `set`: `{ ttlMs?: number; compress?: boolean }`. -/
structure SetOpts where
  ttlMs : Option Int
  compress : Option Bool
deriving Repr, DecidableEq

/-- The message of the error thrown by every public operation on a closed
cache: `throw new Error("Cache is closed")`. -/
def ERR_CLOSED : String := "Cache is closed"

/-- The SQL row filter of `getStatement`:
`WHERE key = @key AND (expires > @now OR expires IS NULL)`. -/
def getMatches (key : String) (nowMs : Int) (r : Row) : Bool :=
  r.key == key &&
    (match r.expires with
     | none => true
     | some e => decide (nowMs < e))

/-- `getStatement`:
`UPDATE OR IGNORE … SET lastAccess = @now WHERE key = @key AND (expires > @now
OR expires IS NULL) RETURNING value, compressed`.
Returns the updated table and the `RETURNING` result (`key` is a primary key,
so at most one row matches; the model updates every matching row, as SQL
`UPDATE` does, and returns the first). -/
def getStatement (table : List Row) (key : String) (nowMs : Int) :
    List Row × Option (Bytes × Bool) :=
  (table.map fun r => if getMatches key nowMs r then { r with lastAccess := nowMs } else r,
   (table.find? (getMatches key nowMs)).map fun r => (r.value, r.compressed))

/-- `setStatement`: `INSERT OR REPLACE INTO … (key, value, expires, lastAccess,
compressed) VALUES (@key, @value, @expires, @now, @compressed)`.  `REPLACE`
deletes any row with the same primary key and inserts the new one. -/
def setStatement (table : List Row) (key : String) (value : Bytes)
    (expires : Option Int) (nowMs : Int) (compressed : Bool) : List Row :=
  (table.filter fun r => r.key != key) ++ [⟨key, value, expires, nowMs, compressed⟩]

/-- `deleteStatement`: `DELETE FROM … WHERE key = @key`. -/
def deleteStatement (table : List Row) (key : String) : List Row :=
  table.filter fun r => r.key != key

/-- `clearStatement`: `DELETE FROM …`. -/
def clearStatement (_table : List Row) : List Row := []

/-- The SQL predicate `expires < @now`.  In SQLite a comparison with `NULL`
is `NULL`, which is not true, so rows with `expires IS NULL` never satisfy
it. -/
def expiresBefore (nowMs : Int) (r : Row) : Bool :=
  match r.expires with
  | none => false
  | some e => decide (e < nowMs)

/-- `cleanupExpiredStatement`: `DELETE FROM … WHERE expires < @now`. -/
def cleanupExpiredStatement (table : List Row) (nowMs : Int) : List Row :=
  table.filter fun r => !expiresBefore nowMs r

/-- The ordering used by the LRU cleanup: `ORDER BY lastAccess DESC`.
`lruGE a b` holds when `a` sorts no later than `b` in that descending order. -/
def lruGE (a b : Row) : Prop := b.lastAccess ≤ a.lastAccess

instance : DecidableRel lruGE := fun a b => Int.decLe b.lastAccess a.lastAccess

instance : IsTotal Row lruGE := ⟨fun a b => le_total b.lastAccess a.lastAccess⟩

instance : IsTrans Row lruGE := ⟨fun _ _ _ h1 h2 => le_trans h2 h1⟩

/-- `cleanupLruStatement`:
`WITH lru AS (SELECT key FROM … ORDER BY lastAccess DESC LIMIT -1 OFFSET
@maxItems) DELETE FROM … WHERE key IN lru` — every key beyond the first
`maxItems` in descending `lastAccess` order is deleted.  SQL leaves the order
of ties unspecified; the model fixes one concrete order (a stable insertion
sort), which realizes the "ties broken arbitrarily" freedom. -/
def cleanupLruStatement (table : List Row) (maxItems : Nat) : List Row :=
  let ordered := List.insertionSort lruGE table
  let victims := (ordered.drop maxItems).map Row.key
  table.filter fun r => !victims.contains r.key

/-- `let compression = opts.compress ?? this.configuration.compress ?? false`
in `set` — the per-call override wins, else the instance default, else
`false`. -/
def effectiveCompression (config : Config) (opts : SetOpts) : Bool :=
  match opts.compress with
  | some b => b
  | none => match config.compress with | some b => b | none => false

/-- The compression branch of `set`: when the effective flag is on and the
encoded buffer reaches `COMPRESSION_MIN_LENGTH`, gzip it, but fall back to
the original bytes when the gzip output is not strictly smaller
(`if (compressed.length >= valueBuffer.length) compression = false` …).
Returns the bytes to persist and the `compressed` flag to persist. -/
def compressForStore (compression : Bool) (compressFn : Bytes → Bytes)
    (valueBuffer : Bytes) : Bytes × Bool :=
  if compression = true ∧ COMPRESSION_MIN_LENGTH ≤ valueBuffer.length then
    let compressed := compressFn valueBuffer
    if valueBuffer.length ≤ compressed.length then (valueBuffer, false)
    else (compressed, true)
  else (valueBuffer, false)

/-- `get`: closed-cache guard, then `getStatement`, then (if the row was
stored compressed) gunzip, then `cbor.decode`.  `decompressFn` and `dec`
stand for the external `zlib.gunzip` and `cbor.decode`. -/
def SqliteCache.get {α : Type} (decompressFn : Bytes → Bytes) (dec : Bytes → α)
    (st : CacheState) (key : String) (nowMs : Int) :
    Except String (CacheState × Option α) :=
  if st.isClosed then .error ERR_CLOSED
  else
    let r := getStatement st.table key nowMs
    match r.2 with
    | none => .ok ({ st with table := r.1 }, none)
    | some (v, compressed) =>
        let value := if compressed then decompressFn v else v
        .ok ({ st with table := r.1 }, some (dec value))

/-- `set`: closed-cache guard, TTL computation
(`const ttl = opts.ttlMs ?? opts.ttlMs` — the source consults `opts.ttlMs`
twice and never `configuration.defaultTtlMs`), compression decision, then
`setStatement`.  `compressFn` stands for the external `zlib.gzip`; `enc` for
`cbor.encode`.  `now1` is the `Date.now()` read for `expires`, `now2` the
`now()` read passed as `@now` (the source reads the clock twice). -/
def SqliteCache.set {α : Type} (config : Config) (compressFn : Bytes → Bytes)
    (enc : α → Bytes) (st : CacheState) (key : String) (value : α)
    (opts : SetOpts) (now1 now2 : Int) : Except String CacheState :=
  if st.isClosed then .error ERR_CLOSED
  else
    let ttl : Option Int := match opts.ttlMs with | some t => some t | none => opts.ttlMs
    let expires : Option Int := ttl.map fun t => now1 + t
    let compression : Bool := effectiveCompression config opts
    let valueBuffer := enc value
    let stored : Bytes × Bool := compressForStore compression compressFn valueBuffer
    .ok { st with table := setStatement st.table key stored.1 expires now2 stored.2 }

/-- `delete`: closed-cache guard, then `deleteStatement`. -/
def SqliteCache.delete (st : CacheState) (key : String) : Except String CacheState :=
  if st.isClosed then .error ERR_CLOSED
  else .ok { st with table := deleteStatement st.table key }

/-- `clear`: closed-cache guard, then `clearStatement`. -/
def SqliteCache.clear (st : CacheState) : Except String CacheState :=
  if st.isClosed then .error ERR_CLOSED
  else .ok { st with table := clearStatement st.table }

/-- `close`: `clearInterval(this.checkInterval)` (the periodic timer is
deregistered), `db.close()` (the connection is released), then
`this.isClosed = true`. -/
def SqliteCache.close (st : CacheState) : CacheState :=
  { st with intervalActive := false, dbOpen := false, isClosed := true }

/-- Outcome of one invocation of the (debounced) sweep body: the new instance
state, the message passed to `console.error` when the `try` block threw
(`none` when nothing was logged), and whether any statement was executed
against the storage handle. -/
structure SweepResult where
  state : CacheState
  logged : Option String
  touchedStorage : Bool
deriving Repr, DecidableEq

/-- Prefix of the `console.error` log line in `checkForExpiredItems`. -/
def SWEEP_LOG : String := "Error in cache-sqlite-lru-ttl when checking for expired items"

/-- The `try` block of `checkForExpiredItems`: run `cleanupExpiredStatement`,
then — `if (this.configuration.maxItems)` is truthy, i.e. present and
nonzero — `cleanupLruStatement`.  A storage error is a fault of the external
engine; `expiredFails` / `lruFails` inject one at the respective statement.
`Except.error` carries the table as already modified when the throw happens. -/
def sweepStatements (config : Config) (table : List Row) (nowMs : Int)
    (expiredFails lruFails : Bool) : Except (List Row) (List Row) :=
  if expiredFails then .error table
  else
    let t1 := cleanupExpiredStatement table nowMs
    match config.maxItems with
    | some m =>
        if m = 0 then .ok t1
        else if lruFails then .error t1
        else .ok (cleanupLruStatement t1 m)
    | none => .ok t1

/-- `checkForExpiredItems` (the debounced sweep body): return immediately when
`isClosed`; otherwise run the two cleanup statements inside `try`/`catch`,
where `catch` only logs via `console.error`.  The result type is total — no
error channel — because the body never rethrows. -/
def checkForExpiredItems (config : Config) (st : CacheState) (nowMs : Int)
    (expiredFails lruFails : Bool) : SweepResult :=
  if st.isClosed then ⟨st, none, false⟩
  else
    match sweepStatements config st.table nowMs expiredFails lruFails with
    | .ok t => ⟨{ st with table := t }, none, true⟩
    | .error t => ⟨{ st with table := t }, some SWEEP_LOG, true⟩

/-- The scheduler-visible state: the cache instance plus the pending flag of
the per-instance `debounce(…, 100, { immediate: true })` wrapper around
`checkForExpiredItems`. -/
structure SchedState where
  cache : CacheState
  debouncePending : Bool
deriving Repr, DecidableEq

/-- Events that can reach the debounced sweep after construction:
the `setInterval(…, 1000)` tick, the `setImmediate` callback scheduled by a
`set`, and the expiry of the debounce quiet-period timer. -/
inductive SchedEvent
  | intervalTick
  | sweepRequest
  | debounceTimerFire
deriving Repr, DecidableEq

/-- One call of the debounced wrapper, with `immediate: true` semantics
(the `debounce` package): on the leading edge — no quiet-period timer
pending — the wrapped function runs at once; during the quiet period further
calls only re-arm the timer and do not run the function.  Returns the new
state and whether storage was touched. -/
def debouncedInvoke (config : Config) (s : SchedState) (nowMs : Int)
    (expiredFails lruFails : Bool) : SchedState × Bool :=
  if s.debouncePending then (⟨s.cache, true⟩, false)
  else
    let r := checkForExpiredItems config s.cache nowMs expiredFails lruFails
    (⟨r.state, true⟩, r.touchedStorage)

/-- One scheduler event.  The interval callback is the debounced wrapper, so
it only runs while the timer is registered; the quiet-period timer of an
`immediate: true` debounce does not invoke the wrapped function when it
elapses — it merely clears the pending flag. -/
def schedStep (config : Config) (s : SchedState) (e : SchedEvent) (nowMs : Int)
    (expiredFails lruFails : Bool) : SchedState × Bool :=
  match e with
  | .intervalTick =>
      if s.cache.intervalActive then debouncedInvoke config s nowMs expiredFails lruFails
      else (s, false)
  | .sweepRequest => debouncedInvoke config s nowMs expiredFails lruFails
  | .debounceTimerFire => (⟨s.cache, false⟩, false)

/-! ## Helper lemmas -/

/-- `a ?? a` collapses: the `ttl` computed by `set` is just `opts.ttlMs`. -/
theorem ttl_collapse (o : Option Int) :
    (match o with | some t => some t | none => o) = o := by
  cases o <;> rfl

/-- After `INSERT OR REPLACE`, looking the key up finds exactly the new row. -/
theorem find?_setStatement (table : List Row) (key : String) (value : Bytes)
    (expires : Option Int) (nowMs : Int) (compressed : Bool) :
    ((setStatement table key value expires nowMs compressed).find? fun r => r.key == key)
      = some ⟨key, value, expires, nowMs, compressed⟩ := by
  unfold setStatement
  rw [List.find?_append]
  have h1 : ((table.filter fun r => r.key != key).find? fun r => r.key == key) = none := by
    rw [List.find?_eq_none]
    intro x hx
    have hx2 := (List.mem_filter.mp hx).2
    simp only [bne_iff_ne, ne_eq, decide_eq_true_eq] at hx2
    simpa using hx2
  rw [h1]
  simp [List.find?]

/-! ## C1 -/

/-- C1: a `set` whose options omit `ttlMs` stores a row with a null `expires`
even when `config.defaultTtlMs` is set (the configured default TTL is never
consulted — `config` is arbitrary here and absent from the conclusion); only
an explicit `opts.ttlMs = some t` yields `expires = some (now + t)`. -/
theorem set_never_applies_defaultTtl {α : Type} (config : Config)
    (compressFn : Bytes → Bytes) (enc : α → Bytes) (st : CacheState) (key : String)
    (v : α) (opts : SetOpts) (now1 now2 : Int) (hopen : st.isClosed = false) :
    ∃ st' r, SqliteCache.set config compressFn enc st key v opts now1 now2 = .ok st' ∧
      (st'.table.find? fun x => x.key == key) = some r ∧
      r.expires = (opts.ttlMs.map fun t => now1 + t) := by
  unfold SqliteCache.set
  rw [hopen]
  simp only [Bool.false_eq_true, if_false]
  refine ⟨_, _, rfl, find?_setStatement _ _ _ _ _ _, ?_⟩
  rw [ttl_collapse]

/-- Witness for C1: with `ttlMs` omitted and `defaultTtlMs = some 5000`, the
stored row has `expires = none`. -/
theorem set_never_applies_defaultTtl_witness :
    (⟨[], false, true, true⟩ : CacheState).isClosed = false ∧
    ∃ st' r, SqliteCache.set ⟨some 5000, none, none⟩ id (fun n => [n])
        (⟨[], false, true, true⟩ : CacheState) "k" (3 : Nat) ⟨none, none⟩ 10 11 = .ok st' ∧
      (st'.table.find? fun x => x.key == "k") = some r ∧
      r.expires = ((none : Option Int).map fun t => 10 + t) :=
  ⟨rfl, set_never_applies_defaultTtl ⟨some 5000, none, none⟩ id (fun n => [n])
    ⟨[], false, true, true⟩ "k" 3 ⟨none, none⟩ 10 11 rfl⟩

/-! ## C6 -/

/-- C6: once `isClosed` holds, `get`, `set`, `delete` and `clear` all throw
`"Cache is closed"` before executing any statement; since the embedding is
pure and the error result carries no successor state, the table contents are
untouched. -/
theorem closed_cache_guard {α : Type} (config : Config)
    (compressFn decompressFn : Bytes → Bytes) (enc : α → Bytes) (dec : Bytes → α)
    (st : CacheState) (key : String) (v : α) (opts : SetOpts) (now1 now2 now3 : Int)
    (hclosed : st.isClosed = true) :
    SqliteCache.get decompressFn dec st key now3 = .error ERR_CLOSED ∧
    SqliteCache.set config compressFn enc st key v opts now1 now2 = .error ERR_CLOSED ∧
    SqliteCache.delete st key = .error ERR_CLOSED ∧
    SqliteCache.clear st = .error ERR_CLOSED := by
  unfold SqliteCache.get SqliteCache.set SqliteCache.delete SqliteCache.clear
  rw [hclosed]
  simp

/-- Witness for C6 at a concrete closed state. -/
theorem closed_cache_guard_witness :
    (⟨[⟨"a", [1], none, 0, false⟩], true, false, false⟩ : CacheState).isClosed = true ∧
    (SqliteCache.get id (fun b => b.length)
        (⟨[⟨"a", [1], none, 0, false⟩], true, false, false⟩ : CacheState) "a" 7
        = .error ERR_CLOSED ∧
     SqliteCache.set ⟨none, none, none⟩ id (fun n => [n])
        (⟨[⟨"a", [1], none, 0, false⟩], true, false, false⟩ : CacheState) "a" (2 : Nat)
        ⟨none, none⟩ 5 6 = .error ERR_CLOSED ∧
     SqliteCache.delete (⟨[⟨"a", [1], none, 0, false⟩], true, false, false⟩ : CacheState) "a"
        = .error ERR_CLOSED ∧
     SqliteCache.clear (⟨[⟨"a", [1], none, 0, false⟩], true, false, false⟩ : CacheState)
        = .error ERR_CLOSED) :=
  ⟨rfl, closed_cache_guard ⟨none, none, none⟩ id id (fun n => [n]) (fun b => b.length)
    ⟨[⟨"a", [1], none, 0, false⟩], true, false, false⟩ "a" 2 ⟨none, none⟩ 5 6 7 rfl⟩

/-! ## C7 -/

/-- C7: the sweep body is total — its result type has no error channel, so a
storage failure injected at either cleanup statement is absorbed by the
`catch` (surfacing only as the `console.error` message in `logged`) and
never reaches a caller; the closed flag, the interval registration and the
connection state are untouched, so the periodic scheduler keeps running; the
table is left at one of the partial-deletion stages (nothing beyond the
deletions already applied changes); and a sweep on a closed cache does
nothing at all — it does not even touch storage. -/
theorem sweep_failure_contained (config : Config) (st : CacheState)
    (tbl : List Row) (ia db : Bool) (nowMs : Int) (expiredFails lruFails : Bool) :
    checkForExpiredItems config ⟨tbl, true, ia, db⟩ nowMs expiredFails lruFails
      = ⟨⟨tbl, true, ia, db⟩, none, false⟩ ∧
    (checkForExpiredItems config st nowMs expiredFails lruFails).state.isClosed
      = st.isClosed ∧
    (checkForExpiredItems config st nowMs expiredFails lruFails).state.intervalActive
      = st.intervalActive ∧
    (checkForExpiredItems config st nowMs expiredFails lruFails).state.dbOpen
      = st.dbOpen ∧
    ((checkForExpiredItems config st nowMs expiredFails lruFails).logged = none ∨
     (checkForExpiredItems config st nowMs expiredFails lruFails).logged = some SWEEP_LOG) ∧
    ((checkForExpiredItems config st nowMs expiredFails lruFails).state.table = st.table ∨
     (checkForExpiredItems config st nowMs expiredFails lruFails).state.table
       = cleanupExpiredStatement st.table nowMs ∨
     ∃ m, config.maxItems = some m ∧
       (checkForExpiredItems config st nowMs expiredFails lruFails).state.table
         = cleanupLruStatement (cleanupExpiredStatement st.table nowMs) m) := by
  constructor
  · unfold checkForExpiredItems
    simp
  unfold checkForExpiredItems sweepStatements
  cases hc : st.isClosed <;> cases expiredFails <;> cases lruFails <;>
    rcases hm : config.maxItems with _ | m <;>
    simp_all
  all_goals
    rcases Nat.eq_zero_or_pos m with h0 | h0
    · simp [h0]
    · simp [Nat.pos_iff_ne_zero.mp h0]

/-! ## C8 -/

/-- C8: `close` deregisters the periodic interval timer, releases the
database handle and sets the closed flag; afterwards no scheduler event — an
interval tick, a `setImmediate` sweep request left over from a `set`, or the
expiry of the debounce quiet-period timer (which in `immediate: true` mode
never invokes the wrapped function) — executes a sweep against storage or
changes the instance state. -/
theorem close_stops_sweeps (config : Config) (st : CacheState) (pending : Bool)
    (e : SchedEvent) (nowMs : Int) (expiredFails lruFails : Bool) :
    (SqliteCache.close st).intervalActive = false ∧
    (SqliteCache.close st).dbOpen = false ∧
    (SqliteCache.close st).isClosed = true ∧
    (schedStep config ⟨SqliteCache.close st, pending⟩ e nowMs expiredFails lruFails).2
      = false ∧
    (schedStep config ⟨SqliteCache.close st, pending⟩ e nowMs expiredFails lruFails).1.cache
      = SqliteCache.close st := by
  refine ⟨rfl, rfl, rfl, ?_⟩
  cases e <;> cases pending <;>
    simp [schedStep, SqliteCache.close, debouncedInvoke, checkForExpiredItems]

/-! ## C2 -/

/-- Whatever `compressForStore` decides, the persisted bytes never exceed the
encoded length. -/
theorem compressForStore_length_le (c : Bool) (f : Bytes → Bytes) (b : Bytes) :
    (compressForStore c f b).1.length ≤ b.length := by
  by_cases h1 : c = true ∧ COMPRESSION_MIN_LENGTH ≤ b.length
  · by_cases h2 : b.length ≤ (f b).length
    · simp [compressForStore, h1, h2]
    · simp [compressForStore, h1, h2]
      omega
  · simp [compressForStore, h1]

/-- Effective flag off, or buffer below the threshold: stored uncompressed. -/
theorem compressForStore_skip (c : Bool) (f : Bytes → Bytes) (b : Bytes)
    (h : c = false ∨ b.length < COMPRESSION_MIN_LENGTH) :
    compressForStore c f b = (b, false) := by
  unfold compressForStore
  have hneg : ¬ (c = true ∧ COMPRESSION_MIN_LENGTH ≤ b.length) := by
    rcases h with h | h
    · rintro ⟨hc, -⟩; rw [h] at hc; exact Bool.false_ne_true hc
    · rintro ⟨-, hl⟩; omega
  rw [if_neg hneg]

/-- Incompressible data (gzip output at least as long): the gzip result is
discarded and the original bytes stored uncompressed. -/
theorem compressForStore_incompressible (c : Bool) (f : Bytes → Bytes) (b : Bytes)
    (hc : c = true) (hlen : COMPRESSION_MIN_LENGTH ≤ b.length)
    (hbig : b.length ≤ (f b).length) :
    compressForStore c f b = (b, false) := by
  unfold compressForStore
  simp [hc, hlen, hbig]

/-- Strictly smaller gzip output: the compressed bytes are stored with the
`compressed` flag set. -/
theorem compressForStore_compresses (c : Bool) (f : Bytes → Bytes) (b : Bytes)
    (hc : c = true) (hlen : COMPRESSION_MIN_LENGTH ≤ b.length)
    (hsmall : (f b).length < b.length) :
    compressForStore c f b = (f b, true) := by
  unfold compressForStore
  simp [hc, hlen, Nat.not_le.mpr hsmall]

/-- Evaluation of `set` on an open cache: the row written is exactly the
`compressForStore` output together with `expires = opts.ttlMs.map (now1 + ·)`
and `lastAccess = now2`. -/
theorem set_eq_of_open {α : Type} (config : Config) (compressFn : Bytes → Bytes)
    (enc : α → Bytes) (st : CacheState) (key : String) (v : α) (opts : SetOpts)
    (now1 now2 : Int) (hopen : st.isClosed = false) :
    SqliteCache.set config compressFn enc st key v opts now1 now2
      = .ok { st with table := (setStatement st.table key
          (compressForStore (effectiveCompression config opts) compressFn (enc v)).1
          (opts.ttlMs.map fun t => now1 + t) now2
          (compressForStore (effectiveCompression config opts) compressFn (enc v)).2) } := by
  unfold SqliteCache.set
  rw [hopen]
  simp only [Bool.false_eq_true, if_false, ttl_collapse]

/-- C2: per `set`, with `e` the encoded bytes and the effective compression
flag resolved per-call-first: flag off or `e` shorter than 1024 bytes stores
`e` uncompressed; otherwise gzip output no smaller than `e` stores `e`
uncompressed; strictly smaller gzip output is stored with `compressed = true`.
In every case the stored length is at most `e`'s length. -/
theorem set_compression_policy {α : Type} (config : Config) (compressFn : Bytes → Bytes)
    (enc : α → Bytes) (st : CacheState) (key : String) (v : α) (opts : SetOpts)
    (now1 now2 : Int) (hopen : st.isClosed = false) :
    ∃ st' r, SqliteCache.set config compressFn enc st key v opts now1 now2 = .ok st' ∧
      (st'.table.find? fun x => x.key == key) = some r ∧
      r.value.length ≤ (enc v).length ∧
      ((effectiveCompression config opts = false ∨
          (enc v).length < COMPRESSION_MIN_LENGTH) →
        r.value = enc v ∧ r.compressed = false) ∧
      (effectiveCompression config opts = true →
        COMPRESSION_MIN_LENGTH ≤ (enc v).length →
        (enc v).length ≤ (compressFn (enc v)).length →
        r.value = enc v ∧ r.compressed = false) ∧
      (effectiveCompression config opts = true →
        COMPRESSION_MIN_LENGTH ≤ (enc v).length →
        (compressFn (enc v)).length < (enc v).length →
        r.value = compressFn (enc v) ∧ r.compressed = true) := by
  refine ⟨_, _, set_eq_of_open config compressFn enc st key v opts now1 now2 hopen,
    find?_setStatement _ _ _ _ _ _, ?_, ?_, ?_, ?_⟩
  · exact compressForStore_length_le _ _ _
  · intro h
    have hcs := compressForStore_skip (effectiveCompression config opts) compressFn (enc v) h
    exact ⟨by rw [hcs], by rw [hcs]⟩
  · intro hc hlen hbig
    have hcs := compressForStore_incompressible _ compressFn (enc v) hc hlen hbig
    exact ⟨by rw [hcs], by rw [hcs]⟩
  · intro hc hlen hsmall
    have hcs := compressForStore_compresses _ compressFn (enc v) hc hlen hsmall
    exact ⟨by rw [hcs], by rw [hcs]⟩

/-- Witness for C2: a 4-byte value with compression requested stays below the
1024-byte threshold, so it is stored uncompressed. -/
theorem set_compression_policy_witness :
    (⟨[], false, true, true⟩ : CacheState).isClosed = false ∧
    ∃ st' r, SqliteCache.set ⟨none, none, some true⟩ (fun b => 0 :: b)
        (fun n => [n, n, n, n]) (⟨[], false, true, true⟩ : CacheState) "k" (9 : Nat)
        ⟨none, none⟩ 50 51 = .ok st' ∧
      (st'.table.find? fun x => x.key == "k") = some r ∧
      r.value.length ≤ ([9, 9, 9, 9] : Bytes).length ∧
      ((effectiveCompression ⟨none, none, some true⟩ ⟨none, none⟩ = false ∨
          ([9, 9, 9, 9] : Bytes).length < COMPRESSION_MIN_LENGTH) →
        r.value = [9, 9, 9, 9] ∧ r.compressed = false) ∧
      (effectiveCompression ⟨none, none, some true⟩ ⟨none, none⟩ = true →
        COMPRESSION_MIN_LENGTH ≤ ([9, 9, 9, 9] : Bytes).length →
        ([9, 9, 9, 9] : Bytes).length ≤ (0 :: [9, 9, 9, 9] : Bytes).length →
        r.value = [9, 9, 9, 9] ∧ r.compressed = false) ∧
      (effectiveCompression ⟨none, none, some true⟩ ⟨none, none⟩ = true →
        COMPRESSION_MIN_LENGTH ≤ ([9, 9, 9, 9] : Bytes).length →
        ((0 :: [9, 9, 9, 9] : Bytes).length < ([9, 9, 9, 9] : Bytes).length →
        r.value = (0 :: [9, 9, 9, 9] : Bytes) ∧ r.compressed = true)) :=
  ⟨rfl, set_compression_policy ⟨none, none, some true⟩ (fun b => 0 :: b)
    (fun n => [n, n, n, n]) ⟨[], false, true, true⟩ "k" 9 ⟨none, none⟩ 50 51 rfl⟩

/-! ## C5 -/

/-- C5: the TTL sweep deletes exactly the rows whose `expires` is non-null
and strictly below the current time; every surviving row — null `expires` or
`expires ≥ now` — is kept unchanged and in order (the result is a sublist of
the input table). -/
theorem ttl_sweep_exact (table : List Row) (nowMs : Int) :
    (cleanupExpiredStatement table nowMs).Sublist table ∧
    ∀ r, r ∈ cleanupExpiredStatement table nowMs ↔
      r ∈ table ∧ (r.expires = none ∨ ∃ e, r.expires = some e ∧ nowMs ≤ e) := by
  refine ⟨List.filter_sublist _, fun r => ?_⟩
  unfold cleanupExpiredStatement expiresBefore
  rw [List.mem_filter]
  cases hre : r.expires with
  | none => simp [hre]
  | some e => simp [hre, Int.not_lt]

/-! ## C3 -/

/-- A map that applies its update only where a predicate fires is the
identity when the predicate fires nowhere. -/
theorem map_ite_id {l : List Row} {p : Row → Bool} {f : Row → Row}
    (h : ∀ x ∈ l, p x = false) :
    (l.map fun x => if p x then f x else x) = l := by
  induction l with
  | nil => rfl
  | cons a t ih =>
    have ha := h a (List.mem_cons_self a t)
    have ht := ih fun x hx => h x (List.mem_cons_of_mem a hx)
    simp [ha, ht]

/-- The claim-side reading of the `getStatement` row filter: the key matches
and the row is unexpired (`expiresAt` null, or strictly in the future). -/
def rowLiveNow (key : String) (nowMs : Int) (r : Row) : Prop :=
  r.key = key ∧ (r.expires = none ∨ ∃ e, r.expires = some e ∧ nowMs < e)

/-- The SQL `WHERE` predicate of `getStatement` is exactly `rowLiveNow`. -/
theorem getMatches_iff (key : String) (nowMs : Int) (r : Row) :
    getMatches key nowMs r = true ↔ rowLiveNow key nowMs r := by
  unfold getMatches rowLiveNow
  rw [Bool.and_eq_true, beq_iff_eq]
  cases hre : r.expires <;> simp [hre]

instance (key : String) (nowMs : Int) (r : Row) : Decidable (rowLiveNow key nowMs r) :=
  decidable_of_iff (getMatches key nowMs r = true) (getMatches_iff key nowMs r)

/-- C3: `get` on an open cache is an atomic touch-and-fetch.  If some row for
`key` is present and unexpired, exactly the matching row has `lastAccess` set
to now (its other fields, and every other row, are returned verbatim by the
map) and the call yields the decoded — decompressed when the persisted flag
says so — value of the first matching row; when no row is live for the key,
the table is completely unchanged and the call yields `none`. -/
theorem get_touch_and_fetch {α : Type} (decompressFn : Bytes → Bytes) (dec : Bytes → α)
    (st : CacheState) (key : String) (nowMs : Int) (hopen : st.isClosed = false) :
    ∃ st' res, SqliteCache.get decompressFn dec st key nowMs = .ok (st', res) ∧
      st'.isClosed = st.isClosed ∧ st'.intervalActive = st.intervalActive ∧
      st'.dbOpen = st.dbOpen ∧
      st'.table = (st.table.map fun r =>
        if rowLiveNow key nowMs r then ⟨r.key, r.value, r.expires, nowMs, r.compressed⟩
        else r) ∧
      res = ((st.table.find? (getMatches key nowMs)).map fun r =>
        dec (if r.compressed then decompressFn r.value else r.value)) ∧
      ((∀ r ∈ st.table, ¬ rowLiveNow key nowMs r) → st' = st ∧ res = none) := by
  have hmapeq : (st.table.map fun r =>
        if getMatches key nowMs r then { r with lastAccess := nowMs } else r)
      = (st.table.map fun r =>
        if rowLiveNow key nowMs r then ⟨r.key, r.value, r.expires, nowMs, r.compressed⟩
        else r) := by
    apply List.map_congr_left
    intro a _
    by_cases h : rowLiveNow key nowMs a
    · rw [if_pos ((getMatches_iff key nowMs a).mpr h), if_pos h]
    · rw [if_neg (fun hb => h ((getMatches_iff key nowMs a).mp hb)), if_neg h]
  have hid : (∀ r ∈ st.table, ¬ rowLiveNow key nowMs r) →
      (st.table.map fun r =>
        if getMatches key nowMs r then { r with lastAccess := nowMs } else r) = st.table := by
    intro hnone
    exact map_ite_id fun x hx => by
      cases hgx : getMatches key nowMs x
      · rfl
      · exact absurd ((getMatches_iff key nowMs x).mp hgx) (hnone x hx)
  unfold SqliteCache.get getStatement
  rw [hopen]
  simp only [Bool.false_eq_true, if_false]
  cases hf : st.table.find? (getMatches key nowMs) with
  | none =>
    refine ⟨_, _, rfl, rfl, rfl, rfl, hmapeq, rfl, ?_⟩
    intro hnone
    refine ⟨?_, rfl⟩
    rw [hid hnone, ← hopen]
  | some rr =>
    refine ⟨_, _, rfl, rfl, rfl, rfl, hmapeq, rfl, ?_⟩
    intro hnone
    exact absurd ((getMatches_iff key nowMs rr).mp (List.find?_some hf))
      (hnone rr (List.mem_of_find?_eq_some hf))

/-- Witness for C3 on a one-row table whose entry is live. -/
theorem get_touch_and_fetch_witness :
    (⟨[⟨"k", [3], none, 0, false⟩], false, true, true⟩ : CacheState).isClosed = false ∧
    ∃ st' res, SqliteCache.get id (fun b => b.length)
        (⟨[⟨"k", [3], none, 0, false⟩], false, true, true⟩ : CacheState) "k" 9
        = .ok (st', res) ∧
      st'.isClosed = false ∧ st'.intervalActive = true ∧ st'.dbOpen = true ∧
      st'.table = (([⟨"k", [3], none, 0, false⟩] : List Row).map fun r =>
        if rowLiveNow "k" 9 r then ⟨r.key, r.value, r.expires, 9, r.compressed⟩ else r) ∧
      res = ((([⟨"k", [3], none, 0, false⟩] : List Row).find? (getMatches "k" 9)).map
        fun r => (fun b => b.length) (if r.compressed then id r.value else r.value)) ∧
      ((∀ r ∈ ([⟨"k", [3], none, 0, false⟩] : List Row), ¬ rowLiveNow "k" 9 r) →
        st' = ⟨[⟨"k", [3], none, 0, false⟩], false, true, true⟩ ∧ res = none) :=
  ⟨rfl, get_touch_and_fetch id (fun b => b.length)
    ⟨[⟨"k", [3], none, 0, false⟩], false, true, true⟩ "k" 9 rfl⟩

/-! ## C10 -/

/-- C10: a row whose `expires` equals the current time exactly is already
invisible to `get` — the call returns no value and updates nothing — yet the
TTL sweep run at that same instant (`expires < now` is false) keeps the row;
any sweep at a strictly later time deletes it. -/
theorem expiry_boundary {α : Type} (decompressFn : Bytes → Bytes) (dec : Bytes → α)
    (st : CacheState) (key : String) (nowMs : Int) (r : Row)
    (hopen : st.isClosed = false) (hr : r ∈ st.table) (hkey : r.key = key)
    (hexp : r.expires = some nowMs)
    (huniq : ∀ s ∈ st.table, s.key = key → s = r) :
    SqliteCache.get decompressFn dec st key nowMs = .ok (st, none) ∧
    (∀ t, t ≤ nowMs → r ∈ cleanupExpiredStatement st.table t) ∧
    (∀ t, nowMs < t → r ∉ cleanupExpiredStatement st.table t) := by
  have hnomatch : ∀ s ∈ st.table, getMatches key nowMs s = false := by
    intro s hs
    cases hgs : getMatches key nowMs s
    · rfl
    · exfalso
      have hlive := (getMatches_iff key nowMs s).mp hgs
      have hsr : s = r := huniq s hs hlive.1
      rcases hlive.2 with hnone | ⟨e, he, hlt⟩
      · rw [hsr, hexp] at hnone
        exact Option.noConfusion hnone
      · rw [hsr, hexp] at he
        have hne : nowMs = e := Option.some_injective _ he
        omega
  refine ⟨?_, ?_, ?_⟩
  · unfold SqliteCache.get getStatement
    rw [hopen]
    have hfind : st.table.find? (getMatches key nowMs) = none :=
      List.find?_eq_none.mpr fun x hx => by rw [hnomatch x hx]; exact Bool.false_ne_true
    simp only [Bool.false_eq_true, if_false, hfind, Option.map_none]
    have hmap : (st.table.map fun x =>
        if getMatches key nowMs x then { x with lastAccess := nowMs } else x) = st.table :=
      map_ite_id fun x hx => hnomatch x hx
    rw [hmap, ← hopen]
    rfl
  · intro t ht
    unfold cleanupExpiredStatement
    rw [List.mem_filter]
    refine ⟨hr, ?_⟩
    unfold expiresBefore
    rw [hexp]
    simp
    omega
  · intro t ht hmem
    unfold cleanupExpiredStatement at hmem
    rw [List.mem_filter] at hmem
    have hb := hmem.2
    unfold expiresBefore at hb
    rw [hexp] at hb
    simp at hb
    omega

/-- Witness for C10: a single row expiring exactly at time 5. -/
theorem expiry_boundary_witness :
    ((⟨[⟨"k", [2], some 5, 0, false⟩], false, true, true⟩ : CacheState).isClosed = false ∧
     (⟨"k", [2], some 5, 0, false⟩ : Row) ∈
       (⟨[⟨"k", [2], some 5, 0, false⟩], false, true, true⟩ : CacheState).table ∧
     (⟨"k", [2], some 5, 0, false⟩ : Row).key = "k" ∧
     (⟨"k", [2], some 5, 0, false⟩ : Row).expires = some 5 ∧
     (∀ s ∈ (⟨[⟨"k", [2], some 5, 0, false⟩], false, true, true⟩ : CacheState).table,
        s.key = "k" → s = (⟨"k", [2], some 5, 0, false⟩ : Row))) ∧
    (SqliteCache.get id (fun b => b.length)
        (⟨[⟨"k", [2], some 5, 0, false⟩], false, true, true⟩ : CacheState) "k" 5
        = .ok (⟨[⟨"k", [2], some 5, 0, false⟩], false, true, true⟩, none) ∧
     (∀ t, t ≤ 5 → (⟨"k", [2], some 5, 0, false⟩ : Row) ∈
        cleanupExpiredStatement [⟨"k", [2], some 5, 0, false⟩] t) ∧
     (∀ t, 5 < t → (⟨"k", [2], some 5, 0, false⟩ : Row) ∉
        cleanupExpiredStatement [⟨"k", [2], some 5, 0, false⟩] t)) :=
  ⟨⟨rfl, by decide, rfl, rfl, by decide⟩,
   expiry_boundary id (fun b => b.length)
    ⟨[⟨"k", [2], some 5, 0, false⟩], false, true, true⟩ "k" 5
    ⟨"k", [2], some 5, 0, false⟩ rfl (by decide) rfl rfl (by decide)⟩

/-! ## C9 -/

/-- Reading back what `compressForStore` stored — decompress exactly when the
persisted flag is set — recovers the encoded bytes, given the gzip
round-trip contract. -/
theorem compressForStore_decode (c : Bool) (compressFn decompressFn : Bytes → Bytes)
    (hzip : ∀ b, decompressFn (compressFn b) = b) (b : Bytes) :
    (if (compressForStore c compressFn b).2 then decompressFn (compressForStore c compressFn b).1
     else (compressForStore c compressFn b).1) = b := by
  by_cases h1 : c = true ∧ COMPRESSION_MIN_LENGTH ≤ b.length
  · by_cases h2 : b.length ≤ (compressFn b).length
    · simp [compressForStore, h1, h2]
    · simp [compressForStore, h1, h2, hzip]
  · simp [compressForStore, h1]

/-- After `INSERT OR REPLACE`, the `getStatement` filter at a time before the
row's expiry finds exactly the new row. -/
theorem find?_getMatches_setStatement (table : List Row) (key : String) (value : Bytes)
    (expires : Option Int) (nowMs now3 : Int) (compressed : Bool)
    (hlive : expires = none ∨ ∃ e, expires = some e ∧ now3 < e) :
    ((setStatement table key value expires nowMs compressed).find? (getMatches key now3))
      = some ⟨key, value, expires, nowMs, compressed⟩ := by
  unfold setStatement
  rw [List.find?_append]
  have h1 : ((table.filter fun r => r.key != key).find? (getMatches key now3)) = none := by
    rw [List.find?_eq_none]
    intro x hx
    have hx2 := (List.mem_filter.mp hx).2
    simp only [bne_iff_ne, ne_eq, decide_eq_true_eq] at hx2
    unfold getMatches
    simp [hx2]
  rw [h1]
  have h2 : getMatches key now3 ⟨key, value, expires, nowMs, compressed⟩ = true := by
    unfold getMatches
    rcases hlive with h | ⟨e, he, hlt⟩
    · simp [h]
    · simp only [he]
      simp [hlt]
  simp [List.find?, h2]

/-- C9: for any codec and compressor honoring their round-trip contracts
(spec §4.2 — CBOR over all supported value shapes, gzip over all byte
sequences), a `get` right after `set(key, v)` — before the entry's expiry
and with no sweep in between — returns exactly `v`, whether or not the
stored bytes were compressed. -/
theorem set_get_roundtrip {α : Type} (config : Config)
    (compressFn decompressFn : Bytes → Bytes) (enc : α → Bytes) (dec : Bytes → α)
    (hcodec : ∀ w, dec (enc w) = w) (hzip : ∀ b, decompressFn (compressFn b) = b)
    (st : CacheState) (key : String) (v : α) (opts : SetOpts) (now1 now2 now3 : Int)
    (hopen : st.isClosed = false)
    (hfresh : ∀ t, opts.ttlMs = some t → now3 < now1 + t) :
    ∃ st1 st2, SqliteCache.set config compressFn enc st key v opts now1 now2 = .ok st1 ∧
      SqliteCache.get decompressFn dec st1 key now3 = .ok (st2, some v) := by
  refine ⟨_, ?_, set_eq_of_open config compressFn enc st key v opts now1 now2 hopen, ?_⟩
  rotate_left
  have hlive : (opts.ttlMs.map fun t => now1 + t) = none ∨
      ∃ e, (opts.ttlMs.map fun t => now1 + t) = some e ∧ now3 < e := by
    cases ho : opts.ttlMs with
    | none => exact Or.inl rfl
    | some t => exact Or.inr ⟨now1 + t, rfl, hfresh t ho⟩
  have hfind := find?_getMatches_setStatement st.table key
    (compressForStore (effectiveCompression config opts) compressFn (enc v)).1
    (opts.ttlMs.map fun t => now1 + t) now2 now3
    (compressForStore (effectiveCompression config opts) compressFn (enc v)).2 hlive
  have hdecode : (if (compressForStore (effectiveCompression config opts) compressFn (enc v)).2
      then decompressFn (compressForStore (effectiveCompression config opts) compressFn (enc v)).1
      else (compressForStore (effectiveCompression config opts) compressFn (enc v)).1) = enc v :=
    compressForStore_decode (effectiveCompression config opts) compressFn decompressFn hzip (enc v)
  unfold SqliteCache.get getStatement
  simp only [hopen, Bool.false_eq_true, if_false, hfind, Option.map_some']
  rw [hdecode, hcodec v]
  exact rfl

/-- Witness for C9: storing `7` under `"k"` with a fresh TTL and reading it
back at `now3 = 150` yields `7`. -/
theorem set_get_roundtrip_witness :
    ∃ st1 st2, SqliteCache.set ⟨none, none, none⟩ (fun b => 0 :: b) (fun n => [n])
        (⟨[], false, true, true⟩ : CacheState) "k" (7 : Nat) ⟨some 100, none⟩ 100 101
        = .ok st1 ∧
      SqliteCache.get (fun b => b.tail) (fun b => b.headD 0) st1 "k" 150
        = .ok (st2, some 7) :=
  set_get_roundtrip ⟨none, none, none⟩ (fun b => 0 :: b) (fun b => b.tail)
    (fun n => [n]) (fun b => b.headD 0) (fun _ => rfl) (fun _ => rfl)
    ⟨[], false, true, true⟩ "k" 7 ⟨some 100, none⟩ 100 101 150 rfl
    (fun t ht => by injection ht with h; omega)

/-! ## C4 -/

/-- With unique keys, the rows surviving the LRU deletion are exactly the
first `maxItems` rows of the table sorted by descending `lastAccess`. -/
theorem mem_cleanupLru_iff (table : List Row) (m : Nat)
    (hkeys : (table.map Row.key).Nodup) (x : Row) :
    x ∈ cleanupLruStatement table m ↔ x ∈ (List.insertionSort lruGE table).take m := by
  have hperm : (List.insertionSort lruGE table).Perm table := List.perm_insertionSort lruGE table
  have hkeyso : ((List.insertionSort lruGE table).map Row.key).Nodup :=
    ((hperm.map Row.key).nodup_iff).mpr hkeys
  unfold cleanupLruStatement
  rw [List.mem_filter]
  constructor
  · rintro ⟨hxt, hnv⟩
    have hxo : x ∈ List.insertionSort lruGE table := hperm.mem_iff.mpr hxt
    have hxo2 : x ∈ ((List.insertionSort lruGE table).take m
        ++ (List.insertionSort lruGE table).drop m) := by
      rw [List.take_append_drop]; exact hxo
    rcases List.mem_append.mp hxo2 with h | h
    · exact h
    · exfalso
      have hmem : x.key ∈ ((List.insertionSort lruGE table).drop m).map Row.key :=
        List.mem_map_of_mem Row.key h
      rw [List.map_drop] at hmem
      simp [hmem] at hnv
  · intro hx
    have hxo : x ∈ List.insertionSort lruGE table := List.mem_of_mem_take hx
    refine ⟨hperm.mem_iff.mp hxo, ?_⟩
    have hsplit : (List.insertionSort lruGE table).map Row.key
        = ((List.insertionSort lruGE table).take m).map Row.key
          ++ ((List.insertionSort lruGE table).drop m).map Row.key := by
      rw [← List.map_append, List.take_append_drop]
    have hnd := hkeyso
    rw [hsplit] at hnd
    have hdisj := (List.nodup_append.mp hnd).2.2
    have hnmem : x.key ∉ ((List.insertionSort lruGE table).drop m).map Row.key :=
      hdisj (List.mem_map_of_mem Row.key hx)
    rw [List.map_drop] at hnmem
    simp [hnmem]

/-- With unique keys, the LRU deletion leaves exactly
`min maxItems (table length)` rows. -/
theorem length_cleanupLru (table : List Row) (m : Nat)
    (hkeys : (table.map Row.key).Nodup) :
    (cleanupLruStatement table m).length = min m table.length := by
  have hperm : (List.insertionSort lruGE table).Perm table := List.perm_insertionSort lruGE table
  have hrows : table.Nodup := List.Nodup.of_map Row.key hkeys
  have hsub : (cleanupLruStatement table m).Sublist table := by
    unfold cleanupLruStatement
    exact List.filter_sublist _
  have hres : (cleanupLruStatement table m).Nodup := List.Nodup.sublist hsub hrows
  have htake : ((List.insertionSort lruGE table).take m).Nodup :=
    List.Nodup.sublist (List.take_sublist m _) (hperm.nodup_iff.mpr hrows)
  have hpermres : (cleanupLruStatement table m).Perm
      ((List.insertionSort lruGE table).take m) :=
    (List.perm_ext_iff_of_nodup hres htake).mpr (mem_cleanupLru_iff table m hkeys)
  rw [hpermres.length_eq, List.length_take, hperm.length_eq]

/-- With unique keys, no row deleted by the LRU sweep was more recently
accessed than any retained row. -/
theorem cleanupLru_retains (table : List Row) (m : Nat)
    (hkeys : (table.map Row.key).Nodup) :
    ∀ x ∈ cleanupLruStatement table m, ∀ y ∈ table,
      y ∉ cleanupLruStatement table m → y.lastAccess ≤ x.lastAccess := by
  intro x hx y hy hyn
  have hperm : (List.insertionSort lruGE table).Perm table := List.perm_insertionSort lruGE table
  have hxt := (mem_cleanupLru_iff table m hkeys x).mp hx
  have hyo : y ∈ List.insertionSort lruGE table := hperm.mem_iff.mpr hy
  have hyd : y ∈ (List.insertionSort lruGE table).drop m := by
    have hyo2 : y ∈ ((List.insertionSort lruGE table).take m
        ++ (List.insertionSort lruGE table).drop m) := by
      rw [List.take_append_drop]; exact hyo
    rcases List.mem_append.mp hyo2 with h | h
    · exact absurd ((mem_cleanupLru_iff table m hkeys y).mpr h) hyn
    · exact h
  have hsorted := List.sorted_insertionSort lruGE table
  have hpw : List.Pairwise lruGE ((List.insertionSort lruGE table).take m
      ++ (List.insertionSort lruGE table).drop m) := by
    rw [List.take_append_drop]; exact hsorted
  exact (List.pairwise_append.mp hpw).2.2 x hxt y hyd

/-- C4: when `maxItems = m` is configured (a positive bound, as `zod`
validation guarantees) and the table's keys are unique (they are, being the
primary key), a failure-free sweep cycle leaves at most `m` rows — exactly
`min m` (size after the TTL sweep) — all drawn from the post-TTL-sweep table,
and every row the LRU step deleted has `lastAccess` no larger than that of
every retained row: the retained rows are exactly the most recently accessed
ones, up to ties.  (Between a write and the next sweep the bound can be
exceeded: `setStatement` itself never deletes other keys, as `setStatement`'s
definition shows.) -/
theorem lru_sweep_bound (config : Config) (st : CacheState) (nowMs : Int) (m : Nat)
    (hm : config.maxItems = some m) (hmpos : 0 < m) (hopen : st.isClosed = false)
    (hkeys : (st.table.map Row.key).Nodup) :
    (checkForExpiredItems config st nowMs false false).state.table.length ≤ m ∧
    (checkForExpiredItems config st nowMs false false).state.table.length
      = min m (cleanupExpiredStatement st.table nowMs).length ∧
    (∀ x ∈ (checkForExpiredItems config st nowMs false false).state.table,
       x ∈ cleanupExpiredStatement st.table nowMs) ∧
    (∀ x ∈ (checkForExpiredItems config st nowMs false false).state.table,
       ∀ y ∈ cleanupExpiredStatement st.table nowMs,
         y ∉ (checkForExpiredItems config st nowMs false false).state.table →
           y.lastAccess ≤ x.lastAccess) := by
  have hkeys1 : ((cleanupExpiredStatement st.table nowMs).map Row.key).Nodup :=
    List.Nodup.sublist (List.Sublist.map Row.key (List.filter_sublist _)) hkeys
  have hrun : checkForExpiredItems config st nowMs false false
      = ⟨{ st with table :=
            cleanupLruStatement (cleanupExpiredStatement st.table nowMs) m },
         none, true⟩ := by
    unfold checkForExpiredItems sweepStatements
    rw [hopen, hm]
    simp [Nat.pos_iff_ne_zero.mp hmpos]
  rw [hrun]
  refine ⟨?_, ?_, ?_, ?_⟩
  · rw [length_cleanupLru _ _ hkeys1]
    exact Nat.min_le_left _ _
  · exact length_cleanupLru _ _ hkeys1
  · intro x hx
    have hx2 := (mem_cleanupLru_iff _ m hkeys1 x).mp hx
    exact (List.perm_insertionSort lruGE _).mem_iff.mp (List.mem_of_mem_take hx2)
  · exact cleanupLru_retains _ m hkeys1

/-- Witness for C4: three rows, `maxItems = 2`, one row already expired. -/
theorem lru_sweep_bound_witness :
    ((⟨none, some 2, none⟩ : Config).maxItems = some 2 ∧ 0 < 2 ∧
     (⟨[⟨"a", [1], none, 10, false⟩, ⟨"b", [2], some 3, 20, false⟩,
        ⟨"c", [3], none, 30, false⟩], false, true, true⟩ : CacheState).isClosed = false ∧
     (([⟨"a", [1], none, 10, false⟩, ⟨"b", [2], some 3, 20, false⟩,
        ⟨"c", [3], none, 30, false⟩] : List Row).map Row.key).Nodup) ∧
    ((checkForExpiredItems ⟨none, some 2, none⟩
        ⟨[⟨"a", [1], none, 10, false⟩, ⟨"b", [2], some 3, 20, false⟩,
          ⟨"c", [3], none, 30, false⟩], false, true, true⟩ 50 false false).state.table.length
      ≤ 2 ∧
     (checkForExpiredItems ⟨none, some 2, none⟩
        ⟨[⟨"a", [1], none, 10, false⟩, ⟨"b", [2], some 3, 20, false⟩,
          ⟨"c", [3], none, 30, false⟩], false, true, true⟩ 50 false false).state.table.length
      = min 2 (cleanupExpiredStatement [⟨"a", [1], none, 10, false⟩,
          ⟨"b", [2], some 3, 20, false⟩, ⟨"c", [3], none, 30, false⟩] 50).length ∧
     (∀ x ∈ (checkForExpiredItems ⟨none, some 2, none⟩
        ⟨[⟨"a", [1], none, 10, false⟩, ⟨"b", [2], some 3, 20, false⟩,
          ⟨"c", [3], none, 30, false⟩], false, true, true⟩ 50 false false).state.table,
       x ∈ cleanupExpiredStatement [⟨"a", [1], none, 10, false⟩,
          ⟨"b", [2], some 3, 20, false⟩, ⟨"c", [3], none, 30, false⟩] 50) ∧
     (∀ x ∈ (checkForExpiredItems ⟨none, some 2, none⟩
        ⟨[⟨"a", [1], none, 10, false⟩, ⟨"b", [2], some 3, 20, false⟩,
          ⟨"c", [3], none, 30, false⟩], false, true, true⟩ 50 false false).state.table,
       ∀ y ∈ cleanupExpiredStatement [⟨"a", [1], none, 10, false⟩,
          ⟨"b", [2], some 3, 20, false⟩, ⟨"c", [3], none, 30, false⟩] 50,
         y ∉ (checkForExpiredItems ⟨none, some 2, none⟩
            ⟨[⟨"a", [1], none, 10, false⟩, ⟨"b", [2], some 3, 20, false⟩,
              ⟨"c", [3], none, 30, false⟩], false, true, true⟩ 50 false false).state.table →
           y.lastAccess ≤ x.lastAccess)) :=
  ⟨⟨rfl, by decide, rfl, by decide⟩,
   lru_sweep_bound ⟨none, some 2, none⟩
    ⟨[⟨"a", [1], none, 10, false⟩, ⟨"b", [2], some 3, 20, false⟩,
      ⟨"c", [3], none, 30, false⟩], false, true, true⟩ 50 2 rfl (by decide) rfl (by decide)⟩
